import Mathlib

/-!
Verification development for the build-bundle repository.

The source corpus contains two generations of `bundleManager.js` and of
`bundleTasks.js`.  Namespace `V1` embeds the first `bundleManager.js`
variant (constructor taking an options object, `createScriptTags(appPath,
baseUrlPath, isMinified, attr)`, an `isApp` query); namespace `V2` embeds
the second variant (positional constructor with a `name` segment,
`createScriptTags(appPath, isMinified)`).  Namespace `Tasks` embeds the
first `bundleTasks.js` variant: the `bundle` classification walk over the
folder tree, the shared files cache, `writeManifest` and `updateManifest`.

Paths are embedded as lists of path segments (the repository normalizes
every path with forward slashes and a leading plus trailing separator, so a
well-formed path is exactly a list of segments).  Machine strings are Lean
`String`s; JavaScript `undefined`/absent values are `Option`.
-/

/-- `replace(/\\/g, '/')`: rewrite every backslash to a forward slash. -/
def mapSlash (s : String) : String :=
  ⟨s.data.map (fun c => if c = '\\' then '/' else c)⟩

/-- Auxiliary for `String.replace('\\', '/')`: JavaScript `replace` with a
string pattern rewrites only the first occurrence. -/
def replaceFirstAux : List Char → List Char
  | [] => []
  | c :: rest => if c = '\\' then '/' :: rest else c :: replaceFirstAux rest

/-- `filePath.replace('\\', '/')` from the second `formatScriptTag`. -/
def replaceFirstSlash (s : String) : String :=
  ⟨replaceFirstAux s.data⟩

/-- `toLowerCase()`: character-wise lowering of a path string. -/
def toLowerStr (s : String) : String :=
  ⟨s.data.map Char.toLower⟩

/-- JavaScript truthiness of an optional string (absent and empty are falsy). -/
def jsTruthy : Option String → Bool
  | none => false
  | some s => s ≠ ""

/-- Whether the last character of `s` is a forward slash
(`s.charAt(s.length - 1) === '/'`). -/
def endsWithSlash (s : String) : Bool :=
  s.data.getLast? = some '/'

/-- `pack` value of a manifest record: `version` (optional) and the
`modules` boolean flag. -/
structure Pack where
  version : Option String
  modules : Bool
deriving DecidableEq, Repr

/-- A manifest capability record: `files` flag, optional `pack` object and
the optional `isApp` flag (the field may be absent from the JSON). -/
structure Record where
  files : Bool
  pack : Option Pack
  isApp : Option Bool
deriving DecidableEq, Repr

/-- A parsed manifest: lookup by normalized path key, `none` when the key
is absent (JavaScript object property access). -/
def Manifest := String → Option Record

/-- The normalized path key of a segment list: separator-wrapped,
`"/"` for the empty list (mirrors `path.normalize('/' + p + '/')` on a
well-formed path), so `keyOf [a, b] = "/" ++ a ++ "/" ++ b ++ "/"`. -/
def keyOf : List String → String
  | [] => "/"
  | s :: rest => "/" ++ s ++ keyOf rest

/-- The name of the package bundle file: `'package-' + data.pack.version`
when the version is truthy, else `'package'`. -/
def packName (p : Pack) : String :=
  match p.version with
  | some v => if v = "" then "package" else "package-" ++ v
  | none => "package"

namespace V1

/-- `formatScriptTag` (first variant): the whole src, base url included, is
passed through the global backslash replacement; the optional attribute is
inserted before the closing bracket. -/
def formatScriptTag (filePath fileName : String) (isMinified : Bool)
    (attr : Option String) : String :=
  let attrText := match attr with
    | some a => if a = "" then "" else " " ++ a
    | none => ""
  "<script src=\"" ++
    mapSlash (filePath ++ (if isMinified then fileName ++ ".min.js" else fileName ++ ".js")) ++
    "\"" ++ attrText ++ "></script>"

/-- `parseScriptTags` (first variant): package tag when `data.pack &&
data.pack.modules`, then file tag when `data.files`, with the version
segment appended after the fixed `apps` segment. -/
def parseScriptTags (baseUrlPath filePath : String) (data : Option Record)
    (version : Option String) (isMinified : Bool) (attr : Option String) : List String :=
  match data with
  | none => []
  | some d =>
    (match d.pack with
     | some p =>
       if p.modules then
         [formatScriptTag (baseUrlPath ++ "packages" ++ filePath) (packName p) isMinified attr]
       else []
     | none => []) ++
    (if d.files then
       let appPath := baseUrlPath ++ "apps" ++
         (if jsTruthy version then "/" ++ version.getD "" else "")
       [formatScriptTag (appPath ++ filePath) "bundle" isMinified attr]
     else [])

/-- The manager state after construction: parsed manifest (or `null` when
the read/parse failed) and the configured version. -/
structure BundleManager where
  manifest : Option Manifest
  version : Option String

/-- The `try { JSON.parse(readFileSync(...)) } catch { null }` of the
constructor: a failed read or parse degrades to `none`. -/
def loadManifest (read : Except String Manifest) : Option Manifest :=
  match read with
  | Except.ok m => some m
  | Except.error _ => none

/-- The `BundleManager` constructor. -/
def mkBundleManager (read : Except String Manifest) (version : Option String) :
    BundleManager :=
  { manifest := loadManifest read, version := version }

/-- Lines 95-102: ensure the base url ends with a slash, default `"/"`
when the argument is falsy. -/
def baseUrlOf (baseUrlPath : Option String) : String :=
  match baseUrlPath with
  | none => "/"
  | some s => if s = "" then "/" else if endsWithSlash s then s else s ++ "/"

/-- The ancestor loop of `createScriptTags`: visit the requested path and
every ancestor up to (excluding) the root, prepending each level's tags
(`Array.prototype.unshift.apply`).  The loop pops the trailing segment at
each step (`path.normalize(currentPath + '/..')`), so it recurses on the
reversed segment list; `revSegs` is the current path with its segments
reversed. -/
def walkTagsRev (m : Manifest) (baseUrl : String) (version : Option String)
    (isMinified : Bool) (attr : Option String) : List String → List String
  | [] => []
  | s :: rest =>
    walkTagsRev m baseUrl version isMinified attr rest ++
      parseScriptTags baseUrl (keyOf (s :: rest).reverse) (m (keyOf (s :: rest).reverse))
        version isMinified attr

/-- `createScriptTags` (first variant): root tags, framework tags, then the
ancestor walk over the lowercased requested path. -/
def createScriptTags (mgr : BundleManager) (appSegs : List String)
    (baseUrlPath : Option String) (isMinified : Bool) (attr : Option String) :
    List String :=
  let baseUrl := baseUrlOf baseUrlPath
  match mgr.manifest with
  | none => []
  | some m =>
    parseScriptTags baseUrl "/" (m "/") mgr.version isMinified attr ++
    parseScriptTags baseUrl "/framework/" (m "/framework/") mgr.version isMinified attr ++
    walkTagsRev m baseUrl mgr.version isMinified attr (appSegs.map toLowerStr).reverse

/-- A JavaScript value returned by `isApp`: `undefined` or a boolean. -/
inductive JsValue where
  | undef
  | jsBool (b : Bool)
deriving DecidableEq, Repr

/-- `isApp`: look up the exact normalized (lowercased, separator-wrapped)
path; return the record's raw `isApp` field when a record exists, `false`
otherwise. -/
def isApp (mgr : BundleManager) (appSegs : List String) : JsValue :=
  match mgr.manifest with
  | none => JsValue.jsBool false
  | some m =>
    match m (keyOf (appSegs.map toLowerStr)) with
    | none => JsValue.jsBool false
    | some r =>
      match r.isApp with
      | none => JsValue.undef
      | some b => JsValue.jsBool b

end V1

namespace V2

/-- `formatScriptTag` (second variant): only the first backslash of the
file path is replaced and the file name is appended afterwards; no
attribute support. -/
def formatScriptTag (filePath fileName : String) (isMinified : Bool) : String :=
  "<script src=\"" ++ replaceFirstSlash filePath ++
    (if isMinified then fileName ++ ".min.js" else fileName ++ ".js") ++
    "\"></script>"

/-- `parseScriptTags` (second variant): the version segment and then the
name segment are inserted between the base url and the folder path. -/
def parseScriptTags (baseUrlPath filePath : String) (data : Option Record)
    (version : Option String) (name : Option String) (isMinified : Bool) : List String :=
  match data with
  | none => []
  | some d =>
    (match d.pack with
     | some p =>
       if p.modules then
         [formatScriptTag (baseUrlPath ++ "packages" ++ filePath) (packName p) isMinified]
       else []
     | none => []) ++
    (if d.files then
       let appPath := baseUrlPath ++
         (if jsTruthy version then version.getD "" else "") ++
         (if jsTruthy name then
            (if jsTruthy version then "/" ++ name.getD "" else name.getD "")
          else "")
       [formatScriptTag (appPath ++ filePath) "bundle" isMinified]
     else [])

/-- The manager state of the second variant: the base url is fixed at
construction. -/
structure BundleManager where
  manifest : Option Manifest
  baseUrlPath : String
  version : Option String
  name : Option String

/-- Constructor slash handling for the base url of the second variant. -/
def ensureBaseUrl (s : String) : String :=
  if s ≠ "" ∧ ¬ endsWithSlash s then s ++ "/" else s

/-- The ancestor loop of the second `createScriptTags` (no lowercasing);
recursion on the reversed segment list as in `V1.walkTagsRev`. -/
def walkTagsRev (m : Manifest) (baseUrl : String) (version name : Option String)
    (isMinified : Bool) : List String → List String
  | [] => []
  | s :: rest =>
    walkTagsRev m baseUrl version name isMinified rest ++
      parseScriptTags baseUrl (keyOf (s :: rest).reverse) (m (keyOf (s :: rest).reverse))
        version name isMinified

/-- `createScriptTags` (second variant). -/
def createScriptTags (mgr : BundleManager) (appSegs : List String)
    (isMinified : Bool) : List String :=
  match mgr.manifest with
  | none => []
  | some m =>
    parseScriptTags mgr.baseUrlPath "/" (m "/") mgr.version mgr.name isMinified ++
    parseScriptTags mgr.baseUrlPath "/framework/" (m "/framework/")
      mgr.version mgr.name isMinified ++
    walkTagsRev m mgr.baseUrlPath mgr.version mgr.name isMinified appSegs.reverse

end V2

namespace Tasks

/-- A parsed `package.bundle` descriptor: optional version and the module
list; a missing descriptor defaults to `{ modules: [] }`. -/
structure PackInfo where
  version : Option String
  modules : List String
deriving DecidableEq, Repr

/-- The cached contents of one folder: its own code files and its package
descriptor. -/
structure FolderData where
  files : List String
  pack : PackInfo
deriving DecidableEq, Repr

/-- The default descriptor used when a folder has no `package.bundle`. -/
def defaultPack : PackInfo := { version := none, modules := [] }

/-- The data globbed for a folder that is absent from the source tree. -/
def defaultFolder : FolderData := { files := [], pack := defaultPack }

/-- The source tree: an association of folder paths (segments relative to
the input dir) to their own files and descriptor. -/
abbrev Tree := List (List String × FolderData)

/-- `input.frameworkDir` relative to the input dir. -/
def frameworkPath : List String := ["framework"]

/-- Own files and descriptor of one folder (`glob.sync(currentPath +
'/*.js?(x)')` and the folder's `package.bundle`). -/
def folderData (tree : Tree) (p : List String) : FolderData :=
  ((tree.find? (fun e => e.1 == p)).map (fun e => e.2)).getD defaultFolder

/-- The recursive framework glob `frameworkDir + '/**/*.js?(x)'`: all files
of every folder inside the framework subtree. -/
def frameworkFiles (tree : Tree) : List String :=
  ((tree.filter (fun e => frameworkPath.isPrefixOf e.1)).map (fun e => e.2.files)).flatten

/-- What the shared files cache stores for a folder: the recursive
collection for the framework key, own files for every other folder. -/
def collectData (tree : Tree) (p : List String) : FolderData :=
  if p = frameworkPath then
    { files := frameworkFiles tree, pack := (folderData tree frameworkPath).pack }
  else folderData tree p

/-- Does the char list start with `.app.js` up to letter case
(the `\.[aA][pP][pP]\.[jJ][sS]` core of `appFileRegEx`)? -/
def appJsHead : List Char → Bool
  | '.' :: c1 :: c2 :: c3 :: '.' :: c4 :: c5 :: _ =>
    (c1 == 'a' || c1 == 'A') && (c2 == 'p' || c2 == 'P') && (c3 == 'p' || c3 == 'P') &&
    (c4 == 'j' || c4 == 'J') && (c5 == 's' || c5 == 'S')
  | _ => false

/-- Does the char list contain `.app.js` up to letter case at any
position?  `appFileRegEx` is unanchored and its leading character class may
match the empty string, so the regex matches exactly these strings. -/
def hasAppJs : List Char → Bool
  | [] => false
  | c :: rest => appJsHead (c :: rest) || hasAppJs rest

/-- `file.match(appFileRegEx)`: the application-entry naming convention. -/
def isAppFile (s : String) : Bool :=
  hasAppJs s.data

/-- State of one `bundle()` call: folders ensured in the shared files
cache, whether the call returned early, and the collected file/descriptor
data of the bundled folder. -/
structure VisitResult where
  adds : List (List String)
  bailed : Bool
  files : List String
  appFiles : List String
  pack : PackInfo
deriving DecidableEq, Repr

/-- The chain of folders the `while` loop visits, from the bundled folder
up to (including) the input root; recursion over the reversed segments
(the loop pops the trailing segment each iteration). -/
def upChainRev : List String → List (List String)
  | [] => [[]]
  | s :: rest => (s :: rest).reverse :: upChainRev rest

/-- `upChain F`: the visit order `F, parent F, …, []`. -/
def upChain (F : List String) : List (List String) :=
  upChainRev F.reverse

/-- One pass of the collection loop over the remaining chain levels.
At each level the cache entry is ensured; a file matching the
application-entry convention in a folder other than the bundled one makes
the call return early; at the bundled folder the files are split into app
files and residual files and the descriptor is kept. -/
def walkGo (tree : Tree) (F : List String) : List (List String) → VisitResult → VisitResult
  | [], st => st
  | L :: rest, st =>
    if st.bailed then st
    else if L = frameworkPath then walkGo tree F rest st
    else if L ≠ F ∧ (folderData tree L).files.any isAppFile then
      { st with adds := st.adds ++ [L], bailed := true }
    else
      walkGo tree F rest
        (if L = F then
          { st with
            adds := st.adds ++ [L],
            files := st.files ++ (folderData tree L).files.filter (fun f => ¬ isAppFile f),
            appFiles := st.appFiles ++ (folderData tree L).files.filter isAppFile,
            pack := (folderData tree L).pack }
        else { st with adds := st.adds ++ [L] })

/-- One `bundle()` call for folder `F`: the framework cache entry is
always ensured first; a folder strictly inside the framework subtree
returns at once; the framework folder itself takes the pre-collected
recursive framework data; then the ancestor chain is walked. -/
def bundleVisit (tree : Tree) (F : List String) : VisitResult :=
  if frameworkPath.isPrefixOf F ∧ F ≠ frameworkPath then
    { adds := [frameworkPath], bailed := true, files := [], appFiles := [], pack := defaultPack }
  else
    walkGo tree F (upChain F)
      (if F = frameworkPath then
        { adds := [frameworkPath], bailed := false,
          files := (collectData tree frameworkPath).files, appFiles := [],
          pack := (collectData tree frameworkPath).pack }
      else
        { adds := [frameworkPath], bailed := false, files := [], appFiles := [],
          pack := defaultPack })

/-- Whether the call reaches the file-bundle section with something to
bundle (`files.length > 0 || appFiles.length > 0`). -/
def producesFileBundle (r : VisitResult) : Bool :=
  !r.bailed && (!r.files.isEmpty || !r.appFiles.isEmpty)

/-- Whether the call reaches the package-bundle section with modules to
bundle (`pack && pack.modules && pack.modules.length > 0`). -/
def producesPackBundle (r : VisitResult) : Bool :=
  !r.bailed && !r.pack.modules.isEmpty

/-- The shared files cache built over a whole pass. -/
abbrev FilesMap := List (List String × FolderData)

/-- `if (!filesMap[p]) filesMap[p] = { … }`. -/
def addIfAbsent (tree : Tree) (mp : FilesMap) (p : List String) : FilesMap :=
  if mp.any (fun e => e.1 == p) then mp else mp ++ [(p, collectData tree p)]

/-- Ensure a list of cache entries in order. -/
def addAll (tree : Tree) (mp : FilesMap) (ps : List (List String)) : FilesMap :=
  ps.foldl (addIfAbsent tree) mp

/-- The files cache after streaming `bundle()` over the given folders with
one shared cache object. -/
def buildFilesMap (tree : Tree) (folders : List (List String)) : FilesMap :=
  folders.foldl (fun mp F => addAll tree mp (bundleVisit tree F).adds) []

/-- The manifest record `writeManifest`/`updateManifest` derive from one
cache entry: `files` flag, descriptor version, module flag; no `isApp`
field is written. -/
def deriveRecord (d : FolderData) : Record :=
  { files := !d.files.isEmpty,
    pack := some { version := d.pack.version, modules := !d.pack.modules.isEmpty },
    isApp := none }

/-- The persisted key of a cache path:
`prop.toLowerCase().slice(basePathSize)`. -/
def manifestKey (p : List String) : String :=
  keyOf (p.map toLowerStr)

/-- Sequential object assignments `map[key] = record` starting from a
given mapping. -/
def assignAll (init : Manifest) (entries : List (String × Record)) : Manifest :=
  entries.foldl (fun f kv => fun k => if k = kv.1 then some kv.2 else f k) init

/-- The empty mapping (`{}`; also the `ENOENT` fallback of
`updateManifest`). -/
def emptyManifest : Manifest := fun _ => none

/-- `writeManifest`: a fresh mapping holding one derived record per cache
entry. -/
def writeManifest (mp : FilesMap) : Manifest :=
  assignAll emptyManifest (mp.map (fun e => (manifestKey e.1, deriveRecord e.2)))

/-- `updateManifest`: read the existing mapping and assign the derived
record of every cache entry over it. -/
def updateManifest (existing : Manifest) (mp : FilesMap) : Manifest :=
  assignAll existing (mp.map (fun e => (manifestKey e.1, deriveRecord e.2)))

/-- The manifest written by a full build pass. -/
def buildManifest (tree : Tree) (folders : List (List String)) : Manifest :=
  writeManifest (buildFilesMap tree folders)

end Tasks

/-! ### Helper definitions and lemmas for the resolver theorems -/

namespace V1

/-- The package reference a level contributes, when any. -/
def packTagOpt (baseUrlPath filePath : String) (data : Option Record)
    (isMinified : Bool) (attr : Option String) : Option String :=
  match data with
  | none => none
  | some d =>
    match d.pack with
    | some p =>
      if p.modules then
        some (formatScriptTag (baseUrlPath ++ "packages" ++ filePath) (packName p) isMinified attr)
      else none
    | none => none

/-- The file-bundle reference a level contributes, when any. -/
def fileTagOpt (baseUrlPath filePath : String) (data : Option Record)
    (version : Option String) (isMinified : Bool) (attr : Option String) : Option String :=
  match data with
  | none => none
  | some d =>
    if d.files then
      some (formatScriptTag
        ((baseUrlPath ++ "apps" ++ (if jsTruthy version then "/" ++ version.getD "" else "")) ++ filePath)
        "bundle" isMinified attr)
    else none

/-- Each level contributes its package reference (0 or 1) followed by its
file reference (0 or 1). -/
theorem parseScriptTags_eq_opts (b fp : String) (d : Option Record)
    (v : Option String) (mn : Bool) (a : Option String) :
    parseScriptTags b fp d v mn a =
      (packTagOpt b fp d mn a).toList ++ (fileTagOpt b fp d v mn a).toList := by
  cases d with
  | none => rfl
  | some r =>
    cases hp : r.pack with
    | none =>
      by_cases hf : r.files <;>
        simp [parseScriptTags, packTagOpt, fileTagOpt, hp, hf]
    | some p =>
      by_cases hm : p.modules <;> by_cases hf : r.files <;>
        simp [parseScriptTags, packTagOpt, fileTagOpt, hp, hm, hf]

theorem parseScriptTags_length_le (b fp : String) (d : Option Record)
    (v : Option String) (mn : Bool) (a : Option String) :
    (parseScriptTags b fp d v mn a).length ≤ 2 := by
  rw [parseScriptTags_eq_opts]
  cases packTagOpt b fp d mn a <;> cases fileTagOpt b fp d v mn a <;> simp

end V1

/-- Appending one element to a list appends one (full) prefix to its
prefix enumeration. -/
theorem inits_concat {α : Type} (l : List α) (x : α) :
    (l ++ [x]).inits = l.inits ++ [l ++ [x]] := by
  simp [List.inits_append]

namespace V1

/-- The ancestor loop enumerates the nonempty prefixes of the requested
path from the shallowest ancestor down to the requested leaf. -/
theorem walkTagsRev_eq_flatten (m : Manifest) (b : String) (v : Option String)
    (mn : Bool) (a : Option String) (l : List String) :
    walkTagsRev m b v mn a l.reverse =
      (l.inits.tail.map
        (fun p => parseScriptTags b (keyOf p) (m (keyOf p)) v mn a)).flatten := by
  induction l using List.reverseRecOn with
  | nil => simp [walkTagsRev, List.inits]
  | append_singleton l x ih =>
    rw [List.reverse_append]
    simp only [List.reverse_cons, List.reverse_nil, List.nil_append, List.singleton_append]
    rw [walkTagsRev]
    rw [show (x :: l.reverse).reverse = l ++ [x] by simp]
    rw [ih, inits_concat]
    rw [List.tail_append_of_ne_nil (by cases l <;> simp [List.inits])]
    simp

/-- `createScriptTags` over a loaded manifest: root pair, framework pair,
then the per-prefix pairs. -/
theorem createScriptTags_decomp (m : Manifest) (v : Option String)
    (segs : List String) (b : Option String) (mn : Bool) (a : Option String) :
    createScriptTags { manifest := some m, version := v } segs b mn a =
      parseScriptTags (baseUrlOf b) "/" (m "/") v mn a ++
      parseScriptTags (baseUrlOf b) "/framework/" (m "/framework/") v mn a ++
      ((segs.map toLowerStr).inits.tail.map
        (fun p => parseScriptTags (baseUrlOf b) (keyOf p) (m (keyOf p)) v mn a)).flatten := by
  rw [show createScriptTags { manifest := some m, version := v } segs b mn a =
      parseScriptTags (baseUrlOf b) "/" (m "/") v mn a ++
      parseScriptTags (baseUrlOf b) "/framework/" (m "/framework/") v mn a ++
      walkTagsRev m (baseUrlOf b) v mn a (segs.map toLowerStr).reverse from rfl]
  rw [walkTagsRev_eq_flatten]

end V1

theorem one_le_count_slash_keyOf (l : List String) :
    1 ≤ List.count '/' (keyOf l).data := by
  cases l with
  | nil => decide
  | cons s rest =>
    rw [show keyOf (s :: rest) = "/" ++ s ++ keyOf rest from rfl]
    simp [String.data_append, List.count_append]

theorem two_le_count_slash_keyOf (s : String) (rest : List String) :
    2 ≤ List.count '/' (keyOf (s :: rest)).data := by
  rw [show keyOf (s :: rest) = "/" ++ s ++ keyOf rest from rfl]
  have h := one_le_count_slash_keyOf rest
  simp [String.data_append, List.count_append]
  omega

/-- The only segment list whose key is the framework key is the single
segment `framework`. -/
theorem keyOf_eq_framework (p : List String) (h : keyOf p = "/framework/") :
    p = ["framework"] := by
  match p with
  | [] => exact absurd h (by decide)
  | [x] =>
    rw [show keyOf [x] = "/" ++ x ++ "/" from rfl] at h
    have hd : ("/" ++ x ++ "/").data = "/framework/".data := by rw [h]
    have hsplit : "/framework/".data = "/".data ++ ("framework".data ++ "/".data) := by decide
    rw [hsplit] at hd
    simp only [String.data_append, List.append_assoc] at hd
    have hx : x.data ++ "/".data = "framework".data ++ "/".data :=
      List.append_cancel_left hd
    have hx2 : x.data = "framework".data := List.append_cancel_right hx
    have hxs : x = "framework" := by
      cases x; cases hx2; rfl
    rw [hxs]
  | x :: y :: rest =>
    exfalso
    have hcount : List.count '/' (keyOf (x :: y :: rest)).data =
        List.count '/' ("/framework/").data := by rw [h]
    have h1 : List.count '/' ("/framework/").data = 2 := by decide
    have h2 : 2 ≤ List.count '/' (keyOf (y :: rest)).data :=
      two_le_count_slash_keyOf y rest
    rw [show keyOf (x :: y :: rest) = "/" ++ x ++ keyOf (y :: rest) from rfl] at hcount
    simp [String.data_append, List.count_append] at hcount
    omega

namespace V1

/-- For requests whose first normalized segment is not `framework`, the
ancestor loop never reads the framework key, so the walk over the manifest
equals the walk over the manifest with its framework record erased. -/
theorem walkTagsRev_mask_framework (m : Manifest) (b : String) (v : Option String)
    (mn : Bool) (a : Option String) (l : List String)
    (h : l.head? ≠ some "framework") :
    walkTagsRev m b v mn a l.reverse =
      walkTagsRev (fun k => if k = "/framework/" then none else m k) b v mn a l.reverse := by
  rw [walkTagsRev_eq_flatten, walkTagsRev_eq_flatten]
  congr 1
  apply List.map_congr_left
  intro p hp
  have hkey : keyOf p ≠ "/framework/" := by
    intro hk
    have hpfw := keyOf_eq_framework p hk
    cases l with
    | nil => simp [List.inits] at hp
    | cons a rest =>
      simp only [List.inits] at hp
      rw [List.tail_cons] at hp
      obtain ⟨q, hq, hpq⟩ := List.mem_map.mp hp
      rw [hpfw] at hpq
      have ha : a = "framework" := (List.cons.injEq a q "framework" []).mp hpq |>.1
      exact h (by rw [ha]; rfl)
  simp [hkey]

end V1

theorem mapSlash_data (s : String) :
    (mapSlash s).data = s.data.map (fun c => if c = '\\' then '/' else c) := rfl

theorem mapSlash_append (a b : String) :
    mapSlash (a ++ b) = mapSlash a ++ mapSlash b := by
  cases a with
  | mk la =>
    cases b with
    | mk lb =>
      show (⟨(la ++ lb).map _⟩ : String) = ⟨la.map _ ++ lb.map _⟩
      rw [List.map_append]

theorem mapSlash_no_backslash (s : String) :
    (mapSlash s).data.contains '\\' = false := by
  rw [Bool.eq_false_iff]
  intro hc
  have hm : '\\' ∈ (mapSlash s).data := List.elem_iff.mp hc
  rw [mapSlash_data] at hm
  obtain ⟨c, _, hfc⟩ := List.mem_map.mp hm
  by_cases hcb : c = '\\'
  · rw [hcb] at hfc; exact absurd hfc (by decide)
  · rw [if_neg hcb] at hfc; exact hcb hfc

namespace V1

/-- Every reference a level contributes is a formatted tag whose file path
starts with the effective base url. -/
theorem mem_parseScriptTags (b fp : String) (d : Option Record) (v : Option String)
    (mn : Bool) (a : Option String) (tag : String)
    (h : tag ∈ parseScriptTags b fp d v mn a) :
    ∃ suffix fn, tag = formatScriptTag (b ++ suffix) fn mn a := by
  cases d with
  | none => simp [parseScriptTags] at h
  | some r =>
    rw [parseScriptTags_eq_opts] at h
    rcases List.mem_append.mp h with h1 | h2
    · rw [Option.mem_toList] at h1
      cases hp : r.pack with
      | none => simp only [packTagOpt, hp] at h1; simp at h1
      | some p =>
        simp only [packTagOpt, hp] at h1
        by_cases hm : p.modules
        · rw [if_pos hm] at h1
          refine ⟨"packages" ++ fp, packName p, ?_⟩
          have := Option.mem_some_iff.mp h1
          rw [← this, ← String.append_assoc]
        · rw [if_neg hm] at h1; simp at h1
    · rw [Option.mem_toList] at h2
      simp only [fileTagOpt] at h2
      by_cases hf : r.files
      · rw [if_pos hf] at h2
        refine ⟨("apps" ++ (if jsTruthy v then "/" ++ v.getD "" else "")) ++ fp,
          "bundle", ?_⟩
        have := Option.mem_some_iff.mp h2
        rw [← this, ← String.append_assoc, ← String.append_assoc]
      · rw [if_neg hf] at h2; simp at h2

theorem mem_walkTagsRev (m : Manifest) (b : String) (v : Option String)
    (mn : Bool) (a : Option String) (l : List String) (tag : String)
    (h : tag ∈ walkTagsRev m b v mn a l) :
    ∃ fp d, tag ∈ parseScriptTags b fp d v mn a := by
  induction l with
  | nil => simp [walkTagsRev] at h
  | cons s rest ih =>
    rw [walkTagsRev] at h
    rcases List.mem_append.mp h with h1 | h2
    · exact ih h1
    · exact ⟨keyOf (s :: rest).reverse, m (keyOf (s :: rest).reverse), h2⟩

theorem mem_createScriptTags (m : Manifest) (v : Option String) (segs : List String)
    (b : Option String) (mn : Bool) (a : Option String) (tag : String)
    (h : tag ∈ createScriptTags { manifest := some m, version := v } segs b mn a) :
    ∃ fp d, tag ∈ parseScriptTags (baseUrlOf b) fp d v mn a := by
  rw [show createScriptTags { manifest := some m, version := v } segs b mn a =
      parseScriptTags (baseUrlOf b) "/" (m "/") v mn a ++
      parseScriptTags (baseUrlOf b) "/framework/" (m "/framework/") v mn a ++
      walkTagsRev m (baseUrlOf b) v mn a (segs.map toLowerStr).reverse from rfl] at h
  rcases List.mem_append.mp h with h12 | h3
  · rcases List.mem_append.mp h12 with h1 | h2
    · exact ⟨"/", m "/", h1⟩
    · exact ⟨"/framework/", m "/framework/", h2⟩
  · exact mem_walkTagsRev _ _ _ _ _ _ _ h3

/-- Whether a record makes its level emit at least one reference. -/
def emits : Option Record → Bool
  | none => false
  | some d => d.files || (match d.pack with | some p => p.modules | none => false)

theorem parseScriptTags_ne_nil (b fp : String) (d : Option Record) (v : Option String)
    (mn : Bool) (a : Option String) (h : emits d = true) :
    parseScriptTags b fp d v mn a ≠ [] := by
  cases d with
  | none => exact absurd h (by simp [emits])
  | some r =>
    rw [parseScriptTags_eq_opts]
    rw [emits] at h
    cases hp : r.pack with
    | none =>
      rw [hp] at h
      simp at h
      simp [fileTagOpt, h]
    | some p =>
      by_cases hm : p.modules
      · simp [packTagOpt, hp, hm]
      · rw [hp] at h
        simp [hm] at h
        simp [fileTagOpt, h]

/-- Unfolding of `isApp` over a loaded manifest. -/
theorem isApp_eq (m : Manifest) (v : Option String) (segs : List String) :
    isApp { manifest := some m, version := v } segs =
      (match m (keyOf (segs.map toLowerStr)) with
       | none => JsValue.jsBool false
       | some r =>
         match r.isApp with
         | none => JsValue.undef
         | some b => JsValue.jsBool b) := rfl

/-- The tail shape of a formatted script tag. -/
theorem formatScriptTag_shape (fp fn : String) (mn : Bool) (a : Option String) :
    ∃ t, formatScriptTag fp fn mn a =
      "<script src=\"" ++ mapSlash (fp ++ (if mn then fn ++ ".min.js" else fn ++ ".js")) ++ "\"" ++ t := by
  refine ⟨(match a with | some x => if x = "" then "" else " " ++ x | none => "") ++ "></script>", ?_⟩
  rw [show formatScriptTag fp fn mn a =
    "<script src=\"" ++ mapSlash (fp ++ (if mn then fn ++ ".min.js" else fn ++ ".js")) ++ "\"" ++
    (match a with | some x => if x = "" then "" else " " ++ x | none => "") ++ "></script>" from rfl]
  rw [String.append_assoc]

end V1

/-! ### Concrete manifests and managers used by counterexamples and witnesses -/

/-- Manifest holding only a framework record with a file bundle. -/
def mFwOnly : Manifest := fun k =>
  if k = "/framework/" then some ⟨true, none, none⟩ else none

/-- Manifest holding a framework record and a chat record. -/
def mFwChat : Manifest := fun k =>
  if k = "/framework/" then some ⟨true, none, none⟩
  else if k = "/chat/" then some ⟨true, none, none⟩
  else none

/-- Manifest holding only a root record with a file bundle. -/
def mRootOnly : Manifest := fun k =>
  if k = "/" then some ⟨true, none, none⟩ else none

/-! ### Claims C2, C3, C4, C9, C10 -/

/-- Claim C2: for every manifest and requested path, the resolver output is
the root pair, then the framework pair, then one pair per qualifying
ancestor — the nonempty prefixes of the normalized request from the
shallowest ancestor down to the leaf — and every level's pair is its
package reference (0 or 1) followed by its file reference (0 or 1), hence
0–2 references per level. -/
theorem claim_C2 (m : Manifest) (v : Option String) (segs : List String)
    (b : Option String) (mn : Bool) (a : Option String) :
    V1.createScriptTags { manifest := some m, version := v } segs b mn a =
      V1.parseScriptTags (V1.baseUrlOf b) "/" (m "/") v mn a ++
      V1.parseScriptTags (V1.baseUrlOf b) "/framework/" (m "/framework/") v mn a ++
      ((segs.map toLowerStr).inits.tail.map
        (fun p => V1.parseScriptTags (V1.baseUrlOf b) (keyOf p) (m (keyOf p)) v mn a)).flatten ∧
    (∀ fp d, V1.parseScriptTags (V1.baseUrlOf b) fp d v mn a =
      (V1.packTagOpt (V1.baseUrlOf b) fp d mn a).toList ++
      (V1.fileTagOpt (V1.baseUrlOf b) fp d v mn a).toList) ∧
    (∀ fp d, (V1.parseScriptTags (V1.baseUrlOf b) fp d v mn a).length ≤ 2) :=
  ⟨V1.createScriptTags_decomp m v segs b mn a,
   fun fp d => V1.parseScriptTags_eq_opts (V1.baseUrlOf b) fp d v mn a,
   fun fp d => V1.parseScriptTags_length_le (V1.baseUrlOf b) fp d v mn a⟩

/-- Claim C3 counterexample: for the request `/framework/` — a path inside
the framework subtree — the framework record's file reference appears
twice, not exactly once. -/
theorem claim_C3_counterexample :
    V1.createScriptTags { manifest := some mFwOnly, version := none } ["framework"] none false none =
      ["<script src=\"/apps/framework/bundle.js\"></script>",
       "<script src=\"/apps/framework/bundle.js\"></script>"] ∧
    List.count "<script src=\"/apps/framework/bundle.js\"></script>"
      (V1.createScriptTags { manifest := some mFwOnly, version := none } ["framework"] none false none) = 2 := by
  decide

/-- Claim C3 (amended): for every requested path whose first normalized
segment is not `framework` the framework record's references appear
exactly once, immediately after the root pair — the ancestor walk never
reads the framework key, so it computes the same list over the manifest
with the framework record erased.  (For a request inside the framework
subtree the walk reads the framework key again and the references are
emitted a second time.) -/
theorem claim_C3 (m : Manifest) (v : Option String) (segs : List String)
    (b : Option String) (mn : Bool) (a : Option String)
    (h : (segs.map toLowerStr).head? ≠ some "framework") :
    V1.createScriptTags { manifest := some m, version := v } segs b mn a =
      V1.parseScriptTags (V1.baseUrlOf b) "/" (m "/") v mn a ++
      V1.parseScriptTags (V1.baseUrlOf b) "/framework/" (m "/framework/") v mn a ++
      V1.walkTagsRev (fun k => if k = "/framework/" then none else m k)
        (V1.baseUrlOf b) v mn a (segs.map toLowerStr).reverse := by
  rw [show V1.createScriptTags { manifest := some m, version := v } segs b mn a =
      V1.parseScriptTags (V1.baseUrlOf b) "/" (m "/") v mn a ++
      V1.parseScriptTags (V1.baseUrlOf b) "/framework/" (m "/framework/") v mn a ++
      V1.walkTagsRev m (V1.baseUrlOf b) v mn a (segs.map toLowerStr).reverse from rfl]
  rw [V1.walkTagsRev_mask_framework m (V1.baseUrlOf b) v mn a (segs.map toLowerStr) h]

theorem claim_C3_witness :
    V1.createScriptTags { manifest := some mFwChat, version := none } ["chat"] none false none =
      V1.parseScriptTags (V1.baseUrlOf none) "/" (mFwChat "/") none false none ++
      V1.parseScriptTags (V1.baseUrlOf none) "/framework/" (mFwChat "/framework/") none false none ++
      V1.walkTagsRev (fun k => if k = "/framework/" then none else mFwChat k)
        (V1.baseUrlOf none) none false none (["chat"].map toLowerStr).reverse :=
  claim_C3 mFwChat none ["chat"] none false none (by decide)

/-- Claim C4: construction over a missing or unparsable persisted manifest
succeeds with a null manifest, and every later resolution returns the
empty list. -/
theorem claim_C4 (err : String) (v : Option String) (segs : List String)
    (b : Option String) (mn : Bool) (a : Option String) :
    (V1.mkBundleManager (Except.error err) v).manifest = none ∧
    V1.createScriptTags (V1.mkBundleManager (Except.error err) v) segs b mn a = [] :=
  ⟨rfl, rfl⟩

/-- Claim C9: when the loaded manifest holds an emitting root or framework
record, every requested path — also one with no record on its own chain —
yields a non-empty list beginning with the root and framework
references. -/
theorem claim_C9 (m : Manifest) (v : Option String) (segs : List String)
    (b : Option String) (mn : Bool) (a : Option String)
    (h : V1.emits (m "/") = true ∨ V1.emits (m "/framework/") = true) :
    V1.createScriptTags { manifest := some m, version := v } segs b mn a ≠ [] ∧
    ∃ rest, V1.createScriptTags { manifest := some m, version := v } segs b mn a =
      V1.parseScriptTags (V1.baseUrlOf b) "/" (m "/") v mn a ++
      (V1.parseScriptTags (V1.baseUrlOf b) "/framework/" (m "/framework/") v mn a ++ rest) := by
  rw [show V1.createScriptTags { manifest := some m, version := v } segs b mn a =
      V1.parseScriptTags (V1.baseUrlOf b) "/" (m "/") v mn a ++
      V1.parseScriptTags (V1.baseUrlOf b) "/framework/" (m "/framework/") v mn a ++
      V1.walkTagsRev m (V1.baseUrlOf b) v mn a (segs.map toLowerStr).reverse from rfl]
  constructor
  · intro hnil
    rw [List.append_eq_nil] at hnil
    rw [List.append_eq_nil] at hnil
    rcases h with h1 | h2
    · exact V1.parseScriptTags_ne_nil (V1.baseUrlOf b) "/" (m "/") v mn a h1 hnil.1.1
    · exact V1.parseScriptTags_ne_nil (V1.baseUrlOf b) "/framework/" (m "/framework/") v mn a h2 hnil.1.2
  · exact ⟨V1.walkTagsRev m (V1.baseUrlOf b) v mn a (segs.map toLowerStr).reverse,
      List.append_assoc _ _ _⟩

theorem claim_C9_witness :
    V1.createScriptTags { manifest := some mRootOnly, version := none } ["nokey"] none false none ≠ [] :=
  (claim_C9 mRootOnly none ["nokey"] none false none (Or.inl (by decide))).1

/-- Claim C10 counterexample: for a caller-supplied base url containing a
backslash, the src does not begin with the ensured base url — the
backslash has been rewritten to a forward slash. -/
theorem claim_C10_counterexample :
    V1.baseUrlOf (some "\\") = "\\/" ∧
    V1.createScriptTags { manifest := some mRootOnly, version := none } [] (some "\\") false none =
      ["<script src=\"//apps/bundle.js\"></script>"] ∧
    ("\\/".data.isPrefixOf "//apps/bundle.js".data) = false := by
  decide

/-- Claim C10 (amended): every returned reference is a script tag whose
src value contains no backslash and begins with the caller-supplied base
url after trailing-slash ensuring and backslash-to-slash rewriting; with
no base url supplied the prefix defaults to `/`. -/
theorem claim_C10 (m : Manifest) (v : Option String) (segs : List String)
    (b : Option String) (mn : Bool) (a : Option String) (tag : String)
    (h : tag ∈ V1.createScriptTags { manifest := some m, version := v } segs b mn a) :
    (∃ s t, tag = "<script src=\"" ++ s ++ "\"" ++ t ∧
      s.data.contains '\\' = false ∧
      (mapSlash (V1.baseUrlOf b)).data.isPrefixOf s.data = true) ∧
    V1.baseUrlOf none = "/" := by
  refine ⟨?_, rfl⟩
  obtain ⟨fp, d, hmem⟩ := V1.mem_createScriptTags m v segs b mn a tag h
  obtain ⟨suffix, fn, htag⟩ := V1.mem_parseScriptTags (V1.baseUrlOf b) fp d v mn a tag hmem
  obtain ⟨t, hshape⟩ := V1.formatScriptTag_shape (V1.baseUrlOf b ++ suffix) fn mn a
  refine ⟨mapSlash (V1.baseUrlOf b ++ suffix ++ (if mn then fn ++ ".min.js" else fn ++ ".js")),
    t, ?_, mapSlash_no_backslash _, ?_⟩
  · rw [htag, hshape]
  · rw [String.append_assoc, mapSlash_append, String.data_append]
    exact List.isPrefixOf_iff_prefix.mpr ⟨_, rfl⟩

theorem claim_C10_witness :
    ∃ s t, "<script src=\"/apps/bundle.js\"></script>" = "<script src=\"" ++ s ++ "\"" ++ t ∧
      s.data.contains '\\' = false ∧
      (mapSlash (V1.baseUrlOf none)).data.isPrefixOf s.data = true :=
  (claim_C10 mRootOnly none [] none false none
    "<script src=\"/apps/bundle.js\"></script>" (by decide)).1

/-! ### Claim C1 (second resolver variant, Scenario A) -/

/-- The Scenario A manifest. -/
def mScenarioA : Manifest := fun k =>
  if k = "/" then some ⟨false, none, none⟩
  else if k = "/framework/" then some ⟨true, some ⟨some "1.0.0", true⟩, none⟩
  else if k = "/chat/" then some ⟨true, none, none⟩
  else if k = "/chat/group/" then some ⟨true, none, none⟩
  else none

/-- The Scenario A manager: base url `/`, version `1.0.1`, name `apps`. -/
def mgrScenarioA : V2.BundleManager :=
  { manifest := some mScenarioA, baseUrlPath := V2.ensureBaseUrl "/",
    version := some "1.0.1", name := some "apps" }

/-- Claim C1 counterexample: the package bundle file is named
`package-1.0.0.js`, not `bundle-1.0.0.js`, and every src begins with the
base url `/`; the output therefore differs from the claimed reference list
under either reading of the claimed paths. -/
theorem claim_C1_counterexample :
    (V2.createScriptTags mgrScenarioA ["chat", "group"] false).head? ≠
      some "<script src=\"packages/framework/bundle-1.0.0.js\"></script>" ∧
    (V2.createScriptTags mgrScenarioA ["chat", "group"] false).head? ≠
      some "<script src=\"/packages/framework/bundle-1.0.0.js\"></script>" ∧
    V2.createScriptTags mgrScenarioA ["chat", "group"] false ≠
      ["<script src=\"packages/framework/bundle-1.0.0.js\"></script>",
       "<script src=\"1.0.1/apps/framework/bundle.js\"></script>",
       "<script src=\"1.0.1/apps/chat/bundle.js\"></script>",
       "<script src=\"1.0.1/apps/chat/group/bundle.js\"></script>"] ∧
    V2.createScriptTags mgrScenarioA ["chat", "group"] false ≠
      ["<script src=\"/packages/framework/bundle-1.0.0.js\"></script>",
       "<script src=\"/1.0.1/apps/framework/bundle.js\"></script>",
       "<script src=\"/1.0.1/apps/chat/bundle.js\"></script>",
       "<script src=\"/1.0.1/apps/chat/group/bundle.js\"></script>"] := by
  decide

/-- Claim C1 (amended): for Scenario A the resolver returns exactly four
references in order — the framework package reference at
`/packages/framework/package-1.0.0.js`, then the framework, chat and
chat/group file references under `/1.0.1/apps`. -/
theorem claim_C1 :
    V2.createScriptTags mgrScenarioA ["chat", "group"] false =
      ["<script src=\"/packages/framework/package-1.0.0.js\"></script>",
       "<script src=\"/1.0.1/apps/framework/bundle.js\"></script>",
       "<script src=\"/1.0.1/apps/chat/bundle.js\"></script>",
       "<script src=\"/1.0.1/apps/chat/group/bundle.js\"></script>"] := by
  decide

/-! ### Claim C8 (`isApp`) -/

/-- A manifest whose chat record carries no `isApp` field, as the embedded
`writeManifest` produces. -/
def mNoFlag : Manifest := fun k =>
  if k = "/chat/" then some ⟨true, none, none⟩ else none

/-- A manifest whose record carries `isApp = true`. -/
def mWithFlag : Manifest := fun k =>
  if k = "/chat/group/" then some ⟨true, none, some true⟩ else none

/-- Claim C8 counterexample: when the record exists without the flag,
`isApp` returns the raw field — `undefined`, not `false`. -/
theorem claim_C8_counterexample :
    V1.isApp { manifest := some mNoFlag, version := none } ["chat"] = V1.JsValue.undef ∧
    V1.JsValue.undef ≠ V1.JsValue.jsBool false := by
  decide

/-- Claim C8 (amended): `isApp` answers `true` exactly when the manifest
holds a record at the exact normalized key whose flag is set; it returns
`false` when the manifest or the record is absent, but returns `undefined`
(a falsy value that is not `false`) when the record exists without the
flag; and its answer depends only on the record at that exact key. -/
theorem claim_C8 (mo : Option Manifest) (v : Option String) (segs : List String) :
    (V1.isApp { manifest := mo, version := v } segs = V1.JsValue.jsBool true ↔
      ∃ m r, mo = some m ∧ m (keyOf (segs.map toLowerStr)) = some r ∧ r.isApp = some true) ∧
    (mo = none → V1.isApp { manifest := mo, version := v } segs = V1.JsValue.jsBool false) ∧
    (∀ m, mo = some m → m (keyOf (segs.map toLowerStr)) = none →
      V1.isApp { manifest := mo, version := v } segs = V1.JsValue.jsBool false) ∧
    (∀ m r, mo = some m → m (keyOf (segs.map toLowerStr)) = some r → r.isApp = none →
      V1.isApp { manifest := mo, version := v } segs = V1.JsValue.undef) ∧
    (∀ m1 m2, m1 (keyOf (segs.map toLowerStr)) = m2 (keyOf (segs.map toLowerStr)) →
      V1.isApp { manifest := some m1, version := v } segs =
        V1.isApp { manifest := some m2, version := v } segs) := by
  refine ⟨?_, ?_, ?_, ?_, ?_⟩
  · constructor
    · intro h
      cases mo with
      | none => exact absurd h (by simp [V1.isApp])
      | some m =>
        rw [V1.isApp_eq] at h
        cases hm : m (keyOf (segs.map toLowerStr)) with
        | none =>
          simp only [hm] at h
          exact absurd h (by decide)
        | some r =>
          simp only [hm] at h
          cases hr : r.isApp with
          | none =>
            simp only [hr] at h
            exact absurd h (by decide)
          | some b =>
            simp only [hr, V1.JsValue.jsBool.injEq] at h
            exact ⟨m, r, rfl, hm, by rw [hr, h]⟩
    · rintro ⟨m, r, rfl, hm, hr⟩
      rw [V1.isApp_eq]
      simp only [hm, hr]
  · rintro rfl; rfl
  · rintro m rfl hm
    rw [V1.isApp_eq]
    simp only [hm]
  · rintro m r rfl hm hr
    rw [V1.isApp_eq]
    simp only [hm, hr]
  · intro m1 m2 h12
    rw [V1.isApp_eq, V1.isApp_eq, h12]

theorem claim_C8_witness :
    V1.isApp { manifest := some mWithFlag, version := none } ["Chat", "Group"] =
      V1.JsValue.jsBool true :=
  (claim_C8 (some mWithFlag) none ["Chat", "Group"]).1.mpr
    ⟨mWithFlag, ⟨true, none, some true⟩, rfl, by decide, rfl⟩

/-! ### Classification lemmas (first `bundleTasks.js` variant) -/

namespace Tasks

/-- Every prefix of the bundled folder is on the visit chain. -/
theorem mem_upChainRev (r A : List String) (h : A <+: r.reverse) :
    A ∈ upChainRev r := by
  induction r with
  | nil =>
    rw [List.reverse_nil, List.prefix_nil] at h
    rw [h, upChainRev]
    exact List.mem_singleton.mpr rfl
  | cons s rest ih =>
    rw [List.reverse_cons, List.prefix_concat_iff] at h
    rw [upChainRev]
    rcases h with h1 | h2
    · rw [List.reverse_cons, h1]
      exact List.mem_cons_self _ _
    · exact List.mem_cons_of_mem _ (ih h2)

theorem mem_upChain (F A : List String) (h : A <+: F) : A ∈ upChain F := by
  rw [upChain]
  exact mem_upChainRev F.reverse A (by rw [List.reverse_reverse]; exact h)

/-- The walk, once some level other than the bundled folder shows an
application-entry file, ends in the bailed state. -/
theorem walkGo_bail_of_mem (tree : Tree) (F A : List String)
    (levels : List (List String)) (st : VisitResult)
    (hA : A ∈ levels) (hAfw : A ≠ frameworkPath) (hAF : A ≠ F)
    (happ : (folderData tree A).files.any isAppFile = true) :
    (walkGo tree F levels st).bailed = true := by
  induction levels generalizing st with
  | nil => cases hA
  | cons L rest ih =>
    rw [walkGo]
    by_cases hb : st.bailed
    · rw [if_pos hb]; exact hb
    · rw [if_neg hb]
      by_cases hLfw : L = frameworkPath
      · rw [if_pos hLfw]
        have hArest : A ∈ rest := by
          rcases List.mem_cons.mp hA with h1 | h2
          · exact absurd (h1.trans hLfw) hAfw
          · exact h2
        exact ih st hArest
      · rw [if_neg hLfw]
        by_cases hbail : L ≠ F ∧ (folderData tree L).files.any isAppFile = true
        · rw [if_pos hbail]
        · rw [if_neg hbail]
          have hArest : A ∈ rest := by
            rcases List.mem_cons.mp hA with h1 | h2
            · exact absurd (by rw [← h1] at hbail ⊢; exact ⟨hAF, happ⟩) hbail
            · exact h2
          exact ih _ hArest

end Tasks

/-! ### Claims C5, C6, C7 -/

/-- A tree where the folder `chat` holds an application-entry file and its
subfolder `chat/sub` holds a residual code file. -/
def treeNested : Tasks.Tree :=
  [([], { files := [], pack := Tasks.defaultPack }),
   (["chat"], { files := ["/in/chat/chat.app.js"], pack := Tasks.defaultPack }),
   (["chat", "sub"], { files := ["/in/chat/sub/helper.js"], pack := Tasks.defaultPack })]

/-- The folder stream of a full pass over `treeNested`. -/
def foldersNested : List (List String) := [[], ["chat"], ["chat", "sub"]]

/-- Claim C5 counterexample: `chat/sub` lies under the application-entry
folder `chat`, is never bundled — yet the written manifest does hold a
separate record for it, with its files flag set. -/
theorem claim_C5_counterexample :
    (Tasks.folderData treeNested ["chat"]).files.any Tasks.isAppFile = true ∧
    (["chat"] : List String) ≠ ["chat", "sub"] ∧
    Tasks.producesFileBundle (Tasks.bundleVisit treeNested ["chat", "sub"]) = false ∧
    Tasks.producesPackBundle (Tasks.bundleVisit treeNested ["chat", "sub"]) = false ∧
    Tasks.buildManifest treeNested foldersNested "/chat/sub/" =
      some ⟨true, some ⟨none, false⟩, none⟩ := by
  decide

/-- Claim C5 (amended): a folder with a strict ancestor holding an
application-entry file is never independently bundled — the classification
call bails before producing a file or package bundle — but the shared
files cache may still record the folder, so the written manifest can hold
a separate entry for it. -/
theorem claim_C5 (tree : Tasks.Tree) (F A : List String)
    (hpre : A <+: F) (hne : A ≠ F)
    (happ : (Tasks.folderData tree A).files.any Tasks.isAppFile = true) :
    Tasks.producesFileBundle (Tasks.bundleVisit tree F) = false ∧
    Tasks.producesPackBundle (Tasks.bundleVisit tree F) = false := by
  have hbail : (Tasks.bundleVisit tree F).bailed = true := by
    rw [Tasks.bundleVisit]
    by_cases hcase : Tasks.frameworkPath.isPrefixOf F ∧ F ≠ Tasks.frameworkPath
    · rw [if_pos hcase]
    · rw [if_neg hcase]
      have hAfw : A ≠ Tasks.frameworkPath := by
        intro hA
        apply hcase
        constructor
        · rw [← hA]
          exact List.isPrefixOf_iff_prefix.mpr hpre
        · intro hF
          exact hne (by rw [hF, hA])
      exact Tasks.walkGo_bail_of_mem tree F A (Tasks.upChain F) _
        (Tasks.mem_upChain F A hpre) hAfw hne happ
  rw [Tasks.producesFileBundle, Tasks.producesPackBundle, hbail]
  exact ⟨rfl, rfl⟩

theorem claim_C5_witness :
    Tasks.producesFileBundle (Tasks.bundleVisit treeNested ["chat", "sub"]) = false ∧
    Tasks.producesPackBundle (Tasks.bundleVisit treeNested ["chat", "sub"]) = false :=
  claim_C5 treeNested ["chat", "sub"] ["chat"] (by decide) (by decide) (by decide)

namespace Tasks

/-- A key assigned by none of the entries keeps its prior value. -/
theorem assignAll_not_mem (init : Manifest) (entries : List (String × Record))
    (k : String) (h : k ∉ entries.map Prod.fst) :
    assignAll init entries k = init k := by
  induction entries generalizing init with
  | nil => rfl
  | cons kv rest ih =>
    rw [List.map_cons] at h
    have h1 : k ≠ kv.1 := fun he => h (he ▸ List.mem_cons_self _ _)
    have h2 : k ∉ rest.map Prod.fst := fun hm => h (List.mem_cons_of_mem _ hm)
    show assignAll (fun k2 => if k2 = kv.1 then some kv.2 else init k2) rest k = init k
    rw [ih _ h2]
    exact if_neg h1

/-- A key assigned by some entry ends up holding one of the records
written for it. -/
theorem assignAll_mem (init : Manifest) (entries : List (String × Record))
    (k : String) (h : k ∈ entries.map Prod.fst) :
    ∃ r, (k, r) ∈ entries ∧ assignAll init entries k = some r := by
  induction entries generalizing init with
  | nil => cases h
  | cons kv rest ih =>
    show ∃ r, _ ∧ assignAll (fun k2 => if k2 = kv.1 then some kv.2 else init k2) rest k = some r
    by_cases hr : k ∈ rest.map Prod.fst
    · obtain ⟨r, hmem, heq⟩ := ih _ hr
      exact ⟨r, List.mem_cons_of_mem _ hmem, heq⟩
    · have hk : k = kv.1 := by
        rw [List.map_cons] at h
        rcases List.mem_cons.mp h with h1 | h2
        · exact h1
        · exact absurd h2 hr
      refine ⟨kv.2, ?_, ?_⟩
      · rw [hk]
        exact List.mem_cons_self _ _
      · rw [assignAll_not_mem _ _ _ hr]
        exact if_pos hk

/-- Every entry the cache ever holds carries exactly the collected data of
its folder. -/
theorem addIfAbsent_inv (tree : Tree) (mp : FilesMap) (p : List String)
    (h : ∀ e ∈ mp, e.2 = collectData tree e.1) :
    ∀ e ∈ addIfAbsent tree mp p, e.2 = collectData tree e.1 := by
  intro e he
  rw [addIfAbsent] at he
  by_cases hc : mp.any (fun q => q.1 == p)
  · rw [if_pos hc] at he
    exact h e he
  · rw [if_neg hc] at he
    rcases List.mem_append.mp he with h1 | h2
    · exact h e h1
    · rw [List.mem_singleton.mp h2]

theorem addAll_inv (tree : Tree) (ps : List (List String)) :
    ∀ mp : FilesMap, (∀ e ∈ mp, e.2 = collectData tree e.1) →
      ∀ e ∈ addAll tree mp ps, e.2 = collectData tree e.1 := by
  induction ps with
  | nil => intro mp h e he; exact h e he
  | cons p rest ih =>
    intro mp h e he
    exact ih (addIfAbsent tree mp p) (addIfAbsent_inv tree mp p h) e he

theorem buildFilesMap_inv (tree : Tree) (folders : List (List String)) :
    ∀ e ∈ buildFilesMap tree folders, e.2 = collectData tree e.1 := by
  rw [buildFilesMap]
  have haux : ∀ fs : List (List String), ∀ mp : FilesMap,
      (∀ e ∈ mp, e.2 = collectData tree e.1) →
      ∀ e ∈ fs.foldl (fun mp2 F => addAll tree mp2 (bundleVisit tree F).adds) mp,
        e.2 = collectData tree e.1 := by
    intro fs
    induction fs with
    | nil => intro mp h e he; exact h e he
    | cons F rest ih =>
      intro mp h e he
      exact ih _ (addAll_inv tree (bundleVisit tree F).adds mp h) e he
  exact haux folders [] (by intro e he; cases he)

end Tasks

/-- Claim C6: every record the full build pass writes into the manifest
mirrors the collected data of its folder — the files flag is set exactly
when the collected file set (application-entry plus residual files; the
recursive collection for the framework key) is non-empty, the pack modules
flag is set exactly when the descriptor lists at least one module, the
pack version mirrors the descriptor version, and no `isApp` field is
written. -/
theorem claim_C6 (tree : Tasks.Tree) (folders : List (List String))
    (k : String) (r : Record)
    (h : Tasks.buildManifest tree folders k = some r) :
    ∃ p, Tasks.manifestKey p = k ∧
      r.files = !(Tasks.collectData tree p).files.isEmpty ∧
      r.pack = some { version := (Tasks.collectData tree p).pack.version,
                      modules := !(Tasks.collectData tree p).pack.modules.isEmpty } ∧
      r.isApp = none := by
  rw [Tasks.buildManifest, Tasks.writeManifest] at h
  by_cases hk : k ∈ ((Tasks.buildFilesMap tree folders).map
      (fun e => (Tasks.manifestKey e.1, Tasks.deriveRecord e.2))).map Prod.fst
  · obtain ⟨r2, hmem, heq⟩ := Tasks.assignAll_mem Tasks.emptyManifest _ k hk
    rw [heq] at h
    obtain ⟨e, he, hde⟩ := List.mem_map.mp hmem
    have hinv := Tasks.buildFilesMap_inv tree folders e he
    have h1 : Tasks.manifestKey e.1 = k := congrArg Prod.fst hde
    have h2 : Tasks.deriveRecord e.2 = r2 := congrArg Prod.snd hde
    refine ⟨e.1, h1, ?_, ?_, ?_⟩
    · rw [show r = r2 from ((Option.some.injEq r2 r).mp h).symm, ← h2, hinv]
      rfl
    · rw [show r = r2 from ((Option.some.injEq r2 r).mp h).symm, ← h2, hinv]
      rfl
    · rw [show r = r2 from ((Option.some.injEq r2 r).mp h).symm, ← h2, hinv]
      rfl
  · rw [Tasks.assignAll_not_mem _ _ _ hk] at h
    exact absurd h (by simp [Tasks.emptyManifest])

theorem claim_C6_witness :
    ∃ p, Tasks.manifestKey p = "/chat/" ∧
      (Record.mk true (some (Pack.mk none false)) none).files =
        !(Tasks.collectData treeNested p).files.isEmpty ∧
      (Record.mk true (some (Pack.mk none false)) none).pack =
        some { version := (Tasks.collectData treeNested p).pack.version,
               modules := !(Tasks.collectData treeNested p).pack.modules.isEmpty } ∧
      (Record.mk true (some (Pack.mk none false)) none).isApp = none :=
  claim_C6 treeNested foldersNested "/chat/" ⟨true, some ⟨none, false⟩, none⟩ (by decide)

/-- Claim C7: an incremental update writes the derived record for every
touched key — the normalized keys of the changed-folder cache — and leaves
the value of every other key of the existing mapping unchanged. -/
theorem claim_C7 (existing : Manifest) (mp : Tasks.FilesMap) (k : String) :
    (k ∉ mp.map (fun e => Tasks.manifestKey e.1) →
      Tasks.updateManifest existing mp k = existing k) ∧
    (k ∈ mp.map (fun e => Tasks.manifestKey e.1) →
      ∃ p d, (p, d) ∈ mp ∧ Tasks.manifestKey p = k ∧
        Tasks.updateManifest existing mp k = some (Tasks.deriveRecord d)) := by
  constructor
  · intro h
    apply Tasks.assignAll_not_mem
    rw [List.map_map]
    exact h
  · intro h
    obtain ⟨r, hmem, heq⟩ := Tasks.assignAll_mem existing
      (mp.map (fun e => (Tasks.manifestKey e.1, Tasks.deriveRecord e.2))) k
      (by rw [List.map_map]; exact h)
    obtain ⟨e, he, hde⟩ := List.mem_map.mp hmem
    have h1 : Tasks.manifestKey e.1 = k := congrArg Prod.fst hde
    have h2 : Tasks.deriveRecord e.2 = r := congrArg Prod.snd hde
    exact ⟨e.1, e.2, he, h1, by rw [Tasks.updateManifest, heq, ← h2]⟩

/-- The persisted mapping used by the C7 witness. -/
def existingSmall : Manifest := fun k =>
  if k = "/chat/" then some ⟨true, some ⟨none, false⟩, none⟩
  else if k = "/" then some ⟨false, some ⟨none, false⟩, none⟩
  else none

/-- The changed-folder cache used by the C7 witness: only `chat/group`
was rebundled. -/
def mpSmall : Tasks.FilesMap :=
  [(["chat", "group"], { files := ["/in/chat/group/g.app.js"], pack := Tasks.defaultPack })]

theorem claim_C7_witness :
    Tasks.updateManifest existingSmall mpSmall "/chat/" = existingSmall "/chat/" :=
  (claim_C7 existingSmall mpSmall "/chat/").1 (by decide)
